import Mathlib

/-!
# Verification of the reliable-UDP transport layer

Shallow embedding of the reliable-datagram transport implemented in
`ssh_udp_client.py` (class `SSHClientUDP`) and `ssh_udp_server.py`
(class `ReliableUDPServer`), together with proofs about packet framing,
chunking/reassembly, acknowledgment-driven retransmission, receiver
dispatch, and session lifecycle.

Conventions of the embedding:
* byte strings are `List Nat`;
* Python `int` values (sequence numbers, JSON numbers) are `Int`;
* the JSON text layer of the 200-byte header is embedded as the *result*
  of `json.loads` (`Option RawHeader`, `none` for any malformed or
  truncated header), while the byte-exact layout produced by
  `json.dumps` + `ljust` is embedded separately for size reasoning;
* each Python exception site caught by a `try/except` returning `None`
  is a `none` branch of an `Option`-valued function.
-/

/-- Hex digit character for a nibble, as produced by Python hex digests. -/
def hexChar (n : Nat) : Char :=
  if n < 10 then Char.ofNat (48 + n) else Char.ofNat (87 + n)

/-- Modelled from the spec: `hashlib.md5(data).hexdigest()` is an external
library call (not part of this repository); per the spec it is a
"32-character hex digest (MD5 of payload)" providing accidental-corruption
detection only.  It is modelled as a deterministic 32-hex-character digest
of the payload bytes; no claim depends on the internal MD5 compression
function, only on determinism and the fixed output shape. -/
def md5hex (data : List Nat) : String :=
  let h := data.foldl (fun a b => (a * 131 + b + 1) % (2 ^ 128)) 0
  String.mk ((List.range 32).map (fun i => hexChar (h / 16 ^ (31 - i) % 16)))

/-- UTF-8 bytes of a string; all strings used by the protocol header are
ASCII, so one char is one byte. -/
def strBytes (s : String) : List Nat :=
  s.data.map Char.toNat

/-- The exact text produced by `json.dumps({'seq': .., 'checksum': ..,
'type': .., 'length': .., 'session': ..})` with default separators, as in
`_create_packet` of both sides. -/
def jsonHeader (seq : Int) (checksum ptype : String) (plen : Nat) (session : String) : String :=
  "\x7b\"seq\": " ++ toString seq ++ ", \"checksum\": \"" ++ checksum ++
    "\", \"type\": \"" ++ ptype ++ "\", \"length\": " ++ toString plen ++
    ", \"session\": \"" ++ session ++ "\"\x7d"

/-- `_create_packet` (identical logic in `SSHClientUDP._create_packet` and
`ReliableUDPServer._create_packet`): build the JSON header, left-justify it
to `HEADER_SIZE = 200` bytes with spaces (byte 32), and append the payload.
There is no size check of any kind. -/
def create_packet (seq : Int) (ptype session : String) (data : List Nat) : List Nat :=
  let header := strBytes (jsonHeader seq (md5hex data) ptype data.length session)
  header ++ List.replicate (200 - header.length) 32 ++ data

/-- Result of `json.loads` on the stripped 200-byte header region: each JSON
key may be present or absent (an absent key accessed with `[...]` raises
`KeyError`, caught by the surrounding `except` which returns `None`). -/
structure RawHeader where
  seq : Option Int
  checksum : Option String
  ptype : Option String
  plength : Option Int
  session : Option String
deriving DecidableEq

/-- The dictionary returned by a successful `_parse_packet`. -/
structure ParsedPacket where
  seq : Int
  ptype : String
  plength : Int
  session : String
  data : List Nat
deriving DecidableEq

/-- Python slice `xs[:n]`, including the negative-index behaviour. -/
def pySlice (n : Int) (xs : List Nat) : List Nat :=
  if n < 0 then xs.take (xs.length - n.natAbs) else xs.take n.toNat

/-- The result dictionary built at the end of `ReliableUDPServer._parse_packet`:
`seq` and `length` are accessed unconditionally (KeyError → `None`),
`session` via `.get` with default `""`, `data` sliced to the declared length. -/
def finishParse_server (h : RawHeader) (t : String) (data : List Nat) : Option ParsedPacket :=
  match h.seq, h.plength with
  | some s, some l => some ⟨s, t, l, h.session.getD "", pySlice l data⟩
  | _, _ => none

/-- `ReliableUDPServer._parse_packet`: header decode failure → `None`;
checksum over the data region is verified unless the type is `ACK` or
`CONNECT`; any missing required key → `None`. -/
def parse_packet_server (hdr : Option RawHeader) (data : List Nat) : Option ParsedPacket :=
  match hdr with
  | none => none
  | some h =>
    match h.ptype with
    | none => none
    | some t =>
      if t = "ACK" ∨ t = "CONNECT" then finishParse_server h t data
      else
        match h.checksum with
        | none => none
        | some c => if c = md5hex data then finishParse_server h t data else none

/-- The result dictionary built at the end of `SSHClientUDP._parse_packet`:
`seq` is accessed unconditionally, `length` defaults to `0` (and then the
data is left unsliced), `session` via `.get` with default `""`. -/
def finishParse_client (h : RawHeader) (t : String) (data : List Nat) : Option ParsedPacket :=
  match h.seq with
  | none => none
  | some s =>
    match h.plength with
    | some l => some ⟨s, t, l, h.session.getD "", pySlice l data⟩
    | none => some ⟨s, t, 0, h.session.getD "", data⟩

/-- `SSHClientUDP._parse_packet`: like the server's, but the checksum is
verified unless the type is `ACK` or `CONNECT_ACK`. -/
def parse_packet_client (hdr : Option RawHeader) (data : List Nat) : Option ParsedPacket :=
  match hdr with
  | none => none
  | some h =>
    match h.ptype with
    | none => none
    | some t =>
      if t = "ACK" ∨ t = "CONNECT_ACK" then finishParse_client h t data
      else
        match h.checksum with
        | none => none
        | some c => if c = md5hex data then finishParse_client h t data else none

/-- The chunk split `[data[i:i+self.DATA_SIZE] for i in range(0, len(data),
self.DATA_SIZE)]` with `DATA_SIZE = PACKET_SIZE - HEADER_SIZE = 1200`, used
by `SSHClientUDP.send_reliable` and `ReliableUDPServer.send_data`. -/
def splitChunks (data : List Nat) : List (List Nat) :=
  if h : data = [] then [] else data.take 1200 :: splitChunks (data.drop 1200)
termination_by data.length
decreasing_by
  simp only [List.length_drop]
  have hp : 0 < data.length := List.length_pos.mpr h
  omega

theorem splitChunks_nil : splitChunks [] = [] := by
  rw [splitChunks]
  simp

theorem splitChunks_cons (data : List Nat) (h : data ≠ []) :
    splitChunks data = data.take 1200 :: splitChunks (data.drop 1200) := by
  rw [splitChunks]
  simp [h]

theorem splitChunks_eq_nil_iff (data : List Nat) : splitChunks data = [] ↔ data = [] := by
  constructor
  · intro he
    by_contra h
    rw [splitChunks_cons data h] at he
    exact List.cons_ne_nil _ _ he
  · intro h
    rw [h, splitChunks_nil]

theorem join_splitChunks : ∀ (n : Nat) (data : List Nat), data.length ≤ n →
    (splitChunks data).flatten = data := by
  intro n
  induction n with
  | zero =>
    intro data hd
    have : data = [] := by
      cases data with
      | nil => rfl
      | cons a l => simp at hd
    rw [this, splitChunks_nil]
    rfl
  | succ n ih =>
    intro data hd
    by_cases h : data = []
    · rw [h, splitChunks_nil]; rfl
    · rw [splitChunks_cons data h]
      have hlen : (data.drop 1200).length ≤ n := by
        have hp : 0 < data.length := List.length_pos.mpr h
        simp only [List.length_drop]
        omega
      simp only [List.flatten]
      rw [ih (data.drop 1200) hlen]
      exact List.take_append_drop 1200 data

/-- C3: For every byte payload P, splitting P into maximum-chunk-size (1200)
pieces — as both `send_reliable` and `send_data` do — and concatenating the
resulting chunks in order yields P again: `reassemble(split(P)) == P` under
a zero-loss, zero-duplication channel (the receivers append arriving chunks
to the inbound queue in arrival order, so reassembly is concatenation). -/
theorem c3_split_reassemble_id (data : List Nat) : (splitChunks data).flatten = data :=
  join_splitChunks data.length data (Nat.le_refl _)

/-- One record of the per-chunk send loop of `SSHClientUDP.send_reliable`:
the sequence number assigned to the chunk, the packet type, the chunk
payload, the number of transmissions performed, and whether the loop ended
because a matching acknowledgment was received. -/
structure ChunkSend where
  seq : Int
  ptype : String
  payload : List Nat
  count : Nat
  acked : Bool
deriving DecidableEq

/-- The inner `while not ack_received and retries < self.MAX_RETRIES` loop of
`SSHClientUDP.send_reliable` for one chunk.  The environment is an oracle
list of `ack_queue.get(timeout=TIMEOUT)` outcomes: `some v` is an
acknowledgment carrying sequence number `v`, `none` is a timeout
(`queue.Empty`); an exhausted oracle means timeouts forever.  Each loop
iteration transmits the packet once, then pops one outcome: a matching
acknowledgment ends the loop, a non-matching one or a timeout increments
the retry counter.  `fuel` is `MAX_RETRIES - retries`, initially 5.
Returns (ack_received, transmissions performed, remaining oracle). -/
def awaitAck : Nat → Int → List (Option Int) → Bool × Nat × List (Option Int)
  | 0, _, acks => (false, 0, acks)
  | fuel + 1, seq, [] =>
    let r := awaitAck fuel seq []
    (r.1, r.2.1 + 1, r.2.2)
  | fuel + 1, seq, a :: rest =>
    match a with
    | some v =>
      if v = seq then (true, 1, rest)
      else
        let r := awaitAck fuel seq rest
        (r.1, r.2.1 + 1, r.2.2)
    | none =>
      let r := awaitAck fuel seq rest
      (r.1, r.2.1 + 1, r.2.2)

/-- The `for i, chunk in enumerate(chunks)` loop of
`SSHClientUDP.send_reliable`: for each chunk, assign `seq_num` from the
running counter (incrementing the counter before the attempt, exactly as
the code does), tag the final chunk `LAST` and the others `DATA`, and run
the retry loop; a chunk whose retry budget is exhausted aborts the whole
send with `False`.  Returns (result, per-chunk transcript, final counter,
remaining acknowledgment oracle). -/
def send_chunks : List (List Nat) → Int → List (Option Int) →
    Bool × List ChunkSend × Int × List (Option Int)
  | [], seqc, acks => (true, [], seqc, acks)
  | chunk :: rest, seqc, acks =>
    let ptype := if rest = [] then "LAST" else "DATA"
    let r := awaitAck 5 seqc acks
    if r.1 then
      let r2 := send_chunks rest (seqc + 1) r.2.2
      (r2.1, ⟨seqc, ptype, chunk, r.2.1, true⟩ :: r2.2.1, r2.2.2.1, r2.2.2.2)
    else
      (false, [⟨seqc, ptype, chunk, r.2.1, false⟩], seqc + 1, r.2.2)

/-- `SSHClientUDP.send_reliable`: refuse when not connected, otherwise chunk
the payload and run the sequential acknowledged-send loop. -/
def send_reliable (connected : Bool) (seqc : Int) (data : List Nat)
    (acks : List (Option Int)) : Bool × List ChunkSend × Int × List (Option Int) :=
  if connected then send_chunks (splitChunks data) seqc acks
  else (false, [], seqc, acks)

/-- One transmitted chunk of `ReliableUDPServer.send_data` (each chunk is
sent exactly once: the per-chunk retry loop `break`s right after a
successful `sendto`, without awaiting any acknowledgment). -/
structure ServerChunk where
  seq : Int
  ptype : String
  payload : List Nat
deriving DecidableEq

/-- Association-list lookup for the Python dictionaries
`self.sequence_numbers` and `self.clients`. -/
def alookup {β : Type} (k : String) : List (String × β) → Option β
  | [] => none
  | (k', v) :: rest => if k' = k then some v else alookup k rest

/-- Dictionary store `m[k] = v` on the association list. -/
def aset {β : Type} (k : String) (v : β) (m : List (String × β)) : List (String × β) :=
  if (alookup k m).isSome then
    m.map (fun p => if p.1 = k then (p.1, v) else p)
  else (k, v) :: m

/-- The packets transmitted by the chunk loop of
`ReliableUDPServer.send_data`: chunk `i` is framed with sequence number
`seq_num + i` and type `LAST` exactly for the final chunk. -/
def chunkPackets (c : Int) : List (List Nat) → List ServerChunk
  | [] => []
  | ch :: rest =>
    ⟨c, if rest = [] then "LAST" else "DATA", ch⟩ :: chunkPackets (c + 1) rest

/-- `ReliableUDPServer.send_data`: read (initializing to 0 if absent) the
per-session outbound counter, pre-increment it by one, transmit every chunk
exactly once — the code comments "For simplicity, we're not waiting for
ACKs in this demo", so no acknowledgment is ever consulted — then add the
chunk count to the counter and return `True` unconditionally (the `except`
branch of `sendto` is a socket-level failure, modelled as not occurring). -/
def send_data (seqNums : List (String × Int)) (session_id : String) (data : List Nat) :
    Bool × List ServerChunk × List (String × Int) :=
  let c := (alookup session_id seqNums).getD 0
  let chunks := splitChunks data
  (true, chunkPackets c chunks, aset session_id (c + 1 + (chunks.length : Int)) seqNums)

theorem awaitAck_no_match : ∀ (fuel : Nat) (seq : Int) (acks : List (Option Int)),
    (∀ a ∈ acks, a ≠ some seq) →
    awaitAck fuel seq acks = (false, fuel, acks.drop fuel) := by
  intro fuel
  induction fuel with
  | zero => intro seq acks _; simp [awaitAck]
  | succ n ih =>
    intro seq acks h
    cases acks with
    | nil => simp [awaitAck, ih seq [] (by simp)]
    | cons a rest =>
      have hrest : ∀ x ∈ rest, x ≠ some seq := fun x hx => h x (List.mem_cons_of_mem a hx)
      cases a with
      | none => simp [awaitAck, ih seq rest hrest]
      | some v =>
        have hv : ¬(v = seq) := by
          intro hveq
          exact h (some v) (List.mem_cons_self _ _) (by rw [hveq])
        simp [awaitAck, hv, ih seq rest hrest]

theorem awaitAck_false_count : ∀ (fuel : Nat) (seq : Int) (acks : List (Option Int)),
    (awaitAck fuel seq acks).1 = false → (awaitAck fuel seq acks).2.1 = fuel := by
  intro fuel
  induction fuel with
  | zero => intro seq acks _; simp [awaitAck]
  | succ n ih =>
    intro seq acks hf
    cases acks with
    | nil => simp only [awaitAck] at hf ⊢; rw [ih seq [] hf]
    | cons a rest =>
      cases a with
      | none => simp only [awaitAck] at hf ⊢; rw [ih seq rest hf]
      | some v =>
        by_cases hv : v = seq
        · simp [awaitAck, hv] at hf
        · simp only [awaitAck, if_neg hv] at hf ⊢; rw [ih seq rest hf]

theorem send_chunks_fail_last : ∀ (chunks : List (List Nat)) (seqc : Int)
    (acks : List (Option Int)) (tr : List ChunkSend) (c' : Int) (rest : List (Option Int)),
    send_chunks chunks seqc acks = (false, tr, c', rest) →
    ∃ pre e, tr = pre ++ [e] ∧ e.count = 5 ∧ e.acked = false := by
  intro chunks
  induction chunks with
  | nil => intro seqc acks tr c' rest h; simp [send_chunks] at h
  | cons ch chs ih =>
    intro seqc acks tr c' rest h
    simp only [send_chunks] at h
    by_cases hb : (awaitAck 5 seqc acks).1 = true
    · rw [if_pos hb] at h
      simp only [Prod.mk.injEq] at h
      obtain ⟨hok, htr, hc', hrest⟩ := h
      obtain ⟨pre, e, hpe, hc, ha⟩ :=
        ih (seqc + 1) (awaitAck 5 seqc acks).2.2 _ _ _
          (Prod.ext hok (Prod.ext rfl (Prod.ext rfl rfl)))
      refine ⟨⟨seqc, if chs = [] then "LAST" else "DATA", ch, (awaitAck 5 seqc acks).2.1,
        true⟩ :: pre, e, ?_, hc, ha⟩
      rw [← htr, hpe]
      rfl
    · rw [if_neg hb] at h
      have hcount : (awaitAck 5 seqc acks).2.1 = 5 :=
        awaitAck_false_count 5 seqc acks (Bool.not_eq_true _ ▸ hb)
      refine ⟨[], ⟨seqc, if chs = [] then "LAST" else "DATA", ch,
        (awaitAck 5 seqc acks).2.1, false⟩, ?_, hcount, rfl⟩
      have := congrArg (fun p => p.2.1) h
      simp at this
      rw [← this]
      rfl

/-- C2: if no acknowledgment matching the chunk's sequence number ever
arrives, `SSHClientUDP.send_reliable` transmits the chunk once per loop
iteration (retransmitting after every timeout or non-matching
acknowledgment) and gives up after exactly `MAX_RETRIES = 5` transmissions
(`retries` reaching 5), returning `False` for the whole payload: the
transcript shows the first chunk transmitted 5 times, never acknowledged,
no later chunk attempted, and the single boolean result carries no
partial-success information.  The second conjunct shows that every failing
send, wherever the failing chunk sits, ends with a chunk that was
transmitted exactly 5 times without acknowledgment. -/
theorem c2_retry_exhaustion :
    (∀ (data : List Nat) (acks : List (Option Int)) (seqc : Int),
      data ≠ [] → (∀ a ∈ acks, a ≠ some seqc) →
      send_reliable true seqc data acks =
        (false,
         [⟨seqc, if data.length ≤ 1200 then "LAST" else "DATA", data.take 1200, 5, false⟩],
         seqc + 1, acks.drop 5))
    ∧ (∀ (chunks : List (List Nat)) (seqc : Int) (acks : List (Option Int))
        (tr : List ChunkSend) (c' : Int) (rest : List (Option Int)),
      send_chunks chunks seqc acks = (false, tr, c', rest) →
      ∃ pre e, tr = pre ++ [e] ∧ e.count = 5 ∧ e.acked = false) := by
  constructor
  · intro data acks seqc hd hna
    have hlast : (splitChunks (data.drop 1200) = []) = (data.length ≤ 1200) := by
      rw [splitChunks_eq_nil_iff, List.drop_eq_nil_iff]
    rw [send_reliable, if_pos rfl, splitChunks_cons data hd]
    simp only [send_chunks, awaitAck_no_match 5 seqc acks hna, hlast]
    simp
  · exact send_chunks_fail_last

/-- C2 witness: a one-chunk payload against an oracle holding one foreign
acknowledgment and one timeout (then timeouts forever) fails with a
five-transmission transcript. -/
theorem c2_retry_exhaustion_witness :
    send_reliable true 0 [65] [some 9, none] =
      (false, [⟨0, "LAST", [65], 5, false⟩], 1, []) := by
  have h := c2_retry_exhaustion.1 [65] [some 9, none] 0 (by decide) (by decide)
  simpa using h

/-- C10: for the empty payload both `SSHClientUDP.send_reliable` (when
connected) and `ReliableUDPServer.send_data` compute an empty chunk list,
transmit no packet at all — in particular no `LAST` terminal marker — and
still return `True`; the server still pre-increments the session's outbound
sequence counter by one. -/
theorem c10_empty_payload_success :
    (∀ (seqc : Int) (acks : List (Option Int)),
      send_reliable true seqc [] acks = (true, [], seqc, acks))
    ∧ (∀ (m : List (String × Int)) (sid : String),
      send_data m sid [] = (true, [], aset sid ((alookup sid m).getD 0 + 1) m)) := by
  constructor
  · intro seqc acks
    simp [send_reliable, splitChunks_nil, send_chunks]
  · intro m sid
    simp [send_data, splitChunks_nil, chunkPackets]

theorem awaitAck_rest_drop : ∀ (fuel : Nat) (seq : Int) (acks : List (Option Int)),
    ∃ k, (awaitAck fuel seq acks).2.2 = acks.drop k := by
  intro fuel
  induction fuel with
  | zero => intro seq acks; exact ⟨0, rfl⟩
  | succ n ih =>
    intro seq acks
    cases acks with
    | nil =>
      obtain ⟨k, hk⟩ := ih seq []
      exact ⟨k, by simp only [awaitAck]; rw [hk]⟩
    | cons a rest =>
      cases a with
      | none =>
        obtain ⟨k, hk⟩ := ih seq rest
        exact ⟨k + 1, by simp only [awaitAck]; rw [hk]; rfl⟩
      | some v =>
        by_cases hv : v = seq
        · exact ⟨1, by simp [awaitAck, hv]⟩
        · obtain ⟨k, hk⟩ := ih seq rest
          exact ⟨k + 1, by simp only [awaitAck, if_neg hv]; rw [hk]; rfl⟩

theorem awaitAck_true_mem : ∀ (fuel : Nat) (seq : Int) (acks : List (Option Int)),
    (awaitAck fuel seq acks).1 = true → some seq ∈ acks := by
  intro fuel
  induction fuel with
  | zero => intro seq acks h; simp [awaitAck] at h
  | succ n ih =>
    intro seq acks h
    cases acks with
    | nil =>
      simp only [awaitAck] at h
      exact absurd (ih seq [] h) (by simp)
    | cons a rest =>
      cases a with
      | none =>
        simp only [awaitAck] at h
        exact List.mem_cons_of_mem _ (ih seq rest h)
      | some v =>
        by_cases hv : v = seq
        · rw [hv]; exact List.mem_cons_self _ _
        · simp only [awaitAck, if_neg hv] at h
          exact List.mem_cons_of_mem _ (ih seq rest h)

theorem send_chunks_acked_mem : ∀ (chunks : List (List Nat)) (seqc : Int)
    (acks : List (Option Int)) (e : ChunkSend),
    e ∈ (send_chunks chunks seqc acks).2.1 → e.acked = true → some e.seq ∈ acks := by
  intro chunks
  induction chunks with
  | nil => intro seqc acks e he _; simp [send_chunks] at he
  | cons ch chs ih =>
    intro seqc acks e he hacked
    simp only [send_chunks] at he
    by_cases hb : (awaitAck 5 seqc acks).1 = true
    · rw [if_pos hb] at he
      rcases List.mem_cons.mp he with h1 | h2
      · rw [h1]
        exact awaitAck_true_mem 5 seqc acks hb
      · obtain ⟨k, hk⟩ := awaitAck_rest_drop 5 seqc acks
        have := ih (seqc + 1) (awaitAck 5 seqc acks).2.2 e h2 hacked
        rw [hk] at this
        exact List.mem_of_mem_drop this
    · rw [if_neg hb] at he
      rcases List.mem_cons.mp he with h1 | h2
      · rw [h1] at hacked
        simp at hacked
      · simp at h2

theorem send_chunks_dropLast_acked : ∀ (chunks : List (List Nat)) (seqc : Int)
    (acks : List (Option Int)),
    ∀ e ∈ (send_chunks chunks seqc acks).2.1.dropLast, e.acked = true := by
  intro chunks
  induction chunks with
  | nil => intro seqc acks e he; simp [send_chunks] at he
  | cons ch chs ih =>
    intro seqc acks e he
    simp only [send_chunks] at he
    by_cases hb : (awaitAck 5 seqc acks).1 = true
    · rw [if_pos hb] at he
      rcases htr : (send_chunks chs (seqc + 1) (awaitAck 5 seqc acks).2.2).2.1 with _ | ⟨y, ys⟩
      · rw [htr] at he
        simp [List.dropLast] at he
      · rw [htr] at he
        simp only [List.dropLast] at he
        rcases List.mem_cons.mp he with h1 | h2
        · rw [h1]
        · have := ih (seqc + 1) (awaitAck 5 seqc acks).2.2 e
          rw [htr] at this
          exact this (by simpa [List.dropLast] using h2)
    · rw [if_neg hb] at he
      simp [List.dropLast] at he

theorem send_chunks_true_all_acked : ∀ (chunks : List (List Nat)) (seqc : Int)
    (acks : List (Option Int)),
    (send_chunks chunks seqc acks).1 = true →
    ∀ e ∈ (send_chunks chunks seqc acks).2.1, e.acked = true := by
  intro chunks
  induction chunks with
  | nil => intro seqc acks _ e he; simp [send_chunks] at he
  | cons ch chs ih =>
    intro seqc acks hok e he
    simp only [send_chunks] at hok he
    by_cases hb : (awaitAck 5 seqc acks).1 = true
    · rw [if_pos hb] at hok he
      rcases List.mem_cons.mp he with h1 | h2
      · rw [h1]
      · exact ih (seqc + 1) (awaitAck 5 seqc acks).2.2 hok e h2
    · rw [if_neg hb] at hok
      simp at hok

theorem chunkPackets_payloads : ∀ (chunks : List (List Nat)) (c : Int),
    (chunkPackets c chunks).map ServerChunk.payload = chunks := by
  intro chunks
  induction chunks with
  | nil => intro c; rfl
  | cons ch chs ih => intro c; simp [chunkPackets, ih (c + 1)]

/-- C1 counterexample: the accepting side is not stop-and-wait.  On a
1201-byte payload `ReliableUDPServer.send_data` frames two chunks and
transmits the second chunk unconditionally — its type consumes no
acknowledgment oracle at all, since the code `break`s right after `sendto`
with the comment "For simplicity, we're not waiting for ACKs in this demo"
— and returns `True`, so the second chunk is transmitted without the first
ever being acknowledged, contradicting the claim for the accepting side. -/
theorem c1_counterexample :
    send_data [] "s" (List.replicate 1201 0) =
      (true,
       [⟨0, "DATA", List.replicate 1200 0⟩, ⟨1, "LAST", [0]⟩],
       [("s", 3)]) := by
  have hne : List.replicate 1201 (0 : Nat) ≠ [] := by
    intro h
    have := congrArg List.length h
    rw [List.length_replicate, List.length_nil] at this
    exact absurd this (by norm_num)
  have h2 : splitChunks [(0 : Nat)] = [[0]] := by
    rw [splitChunks_cons [0] (by intro h; exact List.cons_ne_nil _ _ h)]
    rw [List.take_of_length_le (by norm_num),
      List.drop_eq_nil_iff.mpr (by norm_num), splitChunks_nil]
  have h1 : splitChunks (List.replicate 1201 (0 : Nat)) = [List.replicate 1200 0, [0]] := by
    rw [splitChunks_cons _ hne]
    rw [List.take_replicate, List.drop_replicate]
    norm_num
    rw [h2]
  simp only [send_data, h1, chunkPackets, aset, alookup, Option.isSome, Option.getD,
    List.length_cons, List.length_nil]
  norm_num

/-- C1 amended: payload sends are stop-and-wait on the initiating side
only.  In `SSHClientUDP.send_reliable` every chunk except possibly the last
one attempted ended its retry loop acknowledged, any chunk recorded as
acknowledged had a matching acknowledgment (`ack == seq_num`) in the
oracle, and a send that returns `True` had every chunk acknowledged — so
the next chunk is never transmitted until the current one is acknowledged.
The accepting side's `ReliableUDPServer.send_data`, by contrast, returns
`True` unconditionally and transmits exactly one packet per chunk of the
payload without ever consulting an acknowledgment. -/
theorem c1_amended_stop_and_wait_client_only :
    (∀ (chunks : List (List Nat)) (seqc : Int) (acks : List (Option Int)),
      (∀ e ∈ (send_chunks chunks seqc acks).2.1.dropLast, e.acked = true)
      ∧ (∀ e ∈ (send_chunks chunks seqc acks).2.1, e.acked = true → some e.seq ∈ acks)
      ∧ ((send_chunks chunks seqc acks).1 = true →
          ∀ e ∈ (send_chunks chunks seqc acks).2.1, e.acked = true))
    ∧ (∀ (m : List (String × Int)) (sid : String) (data : List Nat),
      (send_data m sid data).1 = true
      ∧ (send_data m sid data).2.1.map ServerChunk.payload = splitChunks data) := by
  constructor
  · intro chunks seqc acks
    exact ⟨send_chunks_dropLast_acked chunks seqc acks,
      fun e he ha => send_chunks_acked_mem chunks seqc acks e he ha,
      send_chunks_true_all_acked chunks seqc acks⟩
  · intro m sid data
    exact ⟨rfl, chunkPackets_payloads (splitChunks data) _⟩

/-- C1 amended witness: in a concrete two-chunk client send whose oracle
acknowledges both chunks, the first transcript entry is acknowledged,
and its matching acknowledgment is indeed in the oracle. -/
theorem c1_amended_witness :
    some (0 : Int) ∈ ([some 0, some 1] : List (Option Int)) :=
  (c1_amended_stop_and_wait_client_only.1 [[1], [2]] 0 [some 0, some 1]).2.1
    ⟨0, "DATA", [1], 1, true⟩ (by decide) (by decide)

/-- C4 counterexample: checksum verification is NOT skipped for every
control packet.  `ReliableUDPServer._parse_packet` only exempts `ACK` and
`CONNECT`, so a `CONNECT_ACK` packet is checksum-verified on the accepting
side: with a wrong checksum field it is rejected (`None`), while the very
same header with the matching checksum parses — hence the parse result
depends on the checksum for a control type, contradicting the claim. -/
theorem c4_counterexample :
    parse_packet_server (some ⟨some 0, some "x", some "CONNECT_ACK", some 0, some ""⟩) []
      = none
    ∧ parse_packet_server
        (some ⟨some 0, some (md5hex []), some "CONNECT_ACK", some 0, some ""⟩) []
      = some ⟨0, "CONNECT_ACK", 0, "", []⟩ := by
  constructor
  · decide
  · decide

/-- C4 amended: each side skips checksum verification for `ACK` and for the
connection-control type it expects to receive — `CONNECT` on the accepting
side, `CONNECT_ACK` on the initiating side — and performs checksum
verification for every other type (in particular for `DATA`, `LAST`, and
the remaining control type): for the exempt types the parse result is
independent of the checksum field, and for all other types a checksum field
differing from the digest of the data region makes the parse return
invalid. -/
theorem c4_amended_checksum_exemptions :
    (∀ (h : RawHeader) (data : List Nat) (c1 c2 : Option String) (t : String),
      h.ptype = some t → (t = "ACK" ∨ t = "CONNECT") →
      parse_packet_server (some { h with checksum := c1 }) data
        = parse_packet_server (some { h with checksum := c2 }) data)
    ∧ (∀ (h : RawHeader) (data : List Nat) (c1 c2 : Option String) (t : String),
      h.ptype = some t → (t = "ACK" ∨ t = "CONNECT_ACK") →
      parse_packet_client (some { h with checksum := c1 }) data
        = parse_packet_client (some { h with checksum := c2 }) data)
    ∧ (∀ (h : RawHeader) (data : List Nat) (t : String),
      h.ptype = some t → ¬(t = "ACK" ∨ t = "CONNECT") →
      h.checksum ≠ some (md5hex data) →
      parse_packet_server (some h) data = none)
    ∧ (∀ (h : RawHeader) (data : List Nat) (t : String),
      h.ptype = some t → ¬(t = "ACK" ∨ t = "CONNECT_ACK") →
      h.checksum ≠ some (md5hex data) →
      parse_packet_client (some h) data = none) := by
  refine ⟨?_, ?_, ?_, ?_⟩
  · intro h data c1 c2 t ht hskip
    simp only [parse_packet_server, ht, if_pos hskip, finishParse_server]
  · intro h data c1 c2 t ht hskip
    simp only [parse_packet_client, ht, if_pos hskip, finishParse_client]
  · intro h data t ht hver hck
    simp only [parse_packet_server, ht, if_neg hver]
    cases hc : h.checksum with
    | none => rfl
    | some c =>
      rw [hc] at hck
      have : ¬(c = md5hex data) := fun he => hck (by rw [he])
      simp [this]
  · intro h data t ht hver hck
    simp only [parse_packet_client, ht, if_neg hver]
    cases hc : h.checksum with
    | none => rfl
    | some c =>
      rw [hc] at hck
      have : ¬(c = md5hex data) := fun he => hck (by rw [he])
      simp [this]

/-- C4 amended witness: a concrete `ACK` header parses identically on the
accepting side whether its checksum field is garbage or absent. -/
theorem c4_amended_checksum_exemptions_witness :
    parse_packet_server
        (some { seq := some 1, checksum := some "garbage", ptype := some "ACK",
                plength := some 0, session := some "" }) []
      = parse_packet_server
        (some { seq := some 1, checksum := none, ptype := some "ACK",
                plength := some 0, session := some "" }) [] :=
  c4_amended_checksum_exemptions.1
    ⟨some 1, none, some "ACK", some 0, some ""⟩ [] (some "garbage") none "ACK"
    rfl (Or.inl rfl)

/-- Per-client session record of `ReliableUDPServer.self.clients[sid]`:
peer address, last-activity time, inbound command buffer (the
`queue.Queue` holding payload chunks in arrival order). -/
structure ClientInfo where
  addr : String
  lastActive : Nat
  buffer : List (List Nat)
deriving DecidableEq

/-- The accepting side's registry state: `self.clients` and
`self.sequence_numbers` (Python dictionaries as association lists). -/
structure ServerState where
  clients : List (String × ClientInfo)
  seqNums : List (String × Int)
deriving DecidableEq

/-- Modelled from the spec: session-id generation
`hashlib.md5(f"{addr[0]}:{addr[1]}:{time.time()}".encode()).hexdigest()` —
an opaque digest of the peer address and the current time (the external
digest is modelled by `md5hex` as above). -/
def genSession (addr : String) (now : Nat) : String :=
  md5hex (strBytes addr ++ [now])

/-- One iteration of the packet-handling part of `ReliableUDPServer.start`
for one received datagram, already split into the header-decode result and
the data region; `now` is `time.time()`.  An undecodable packet is
discarded with no state change and no reply (`if not packet: continue`).
`CONNECT` for an unknown session creates the session (generating an id if
the request carried none), initializes its outbound sequence counter, and
replies `CONNECT_ACK` (the concurrently started `handle_client` thread is
outside this step); `CONNECT` for a known session just resends
`CONNECT_ACK`.  `DATA`/`LAST` for a known session refreshes
`last_active`, replies `ACK` echoing the received sequence number to the
packet's source address, and appends the payload chunk to the session's
buffer; for an unknown session it is logged and dropped with no reply.
Any other type (`ACK`, `CONNECT_ACK`, ...) matches no branch and is
ignored.  Returns the new state and the list of (packet bytes,
destination) transmitted. -/
def handle_packet (st : ServerState) (now : Nat) (hdr : Option RawHeader)
    (data : List Nat) (addr : String) : ServerState × List (List Nat × String) :=
  match parse_packet_server hdr data with
  | none => (st, [])
  | some p =>
    if p.ptype = "CONNECT" then
      if (alookup p.session st.clients).isSome then
        (st, [(create_packet 0 "CONNECT_ACK" p.session (strBytes p.session), addr)])
      else
        let sid := if p.session = "" then genSession addr now else p.session
        ({ clients := (sid, ⟨addr, now, []⟩) :: st.clients,
           seqNums := (sid, 0) :: st.seqNums },
         [(create_packet 0 "CONNECT_ACK" sid (strBytes sid), addr)])
    else if p.ptype = "DATA" ∨ p.ptype = "LAST" then
      match alookup p.session st.clients with
      | some _ =>
        ({ st with clients := st.clients.map (fun q =>
             if q.1 = p.session then
               (q.1, { q.2 with lastActive := now, buffer := q.2.buffer ++ [p.data] })
             else q) },
         [(create_packet p.seq "ACK" p.session (strBytes "ACK"), addr)])
      | none => (st, [])
    else (st, [])

/-- The idle sweep at the bottom of every `ReliableUDPServer.start` loop
iteration: collect the sessions with `current_time - last_active > 60` and
delete them from `self.clients` (the sequence-number dictionary is not
cleaned, exactly as in the code). -/
def cleanup_inactive (now : Nat) (st : ServerState) : ServerState :=
  { st with clients := st.clients.filter (fun q => decide (now - q.2.lastActive ≤ 60)) }

/-- The initiating side's state touched by its receiver thread:
`self.session_id`, the acknowledgment queue and the data queue. -/
structure ClientState where
  sessionId : String
  ackQueue : List Int
  dataQueue : List (List Nat)
deriving DecidableEq

/-- One iteration of `SSHClientUDP.receiver` for one received datagram
(header-decode result plus data region).  An undecodable packet is skipped
(`if not packet: continue`).  `ACK` enqueues the echoed sequence number for
`send_reliable`; `CONNECT_ACK` records the session id from the header's
session field only if none is set yet (later duplicates are ignored);
`DATA`/`LAST` is acknowledged unconditionally — the reply `ACK` echoes the
received sequence number and carries the client's current session id —
and the payload chunk is appended to the data queue.  Returns the new
state and the packets transmitted to the server. -/
def receiver_step (st : ClientState) (hdr : Option RawHeader) (data : List Nat) :
    ClientState × List (List Nat) :=
  match parse_packet_client hdr data with
  | none => (st, [])
  | some p =>
    if p.ptype = "ACK" then
      ({ st with ackQueue := st.ackQueue ++ [p.seq] }, [])
    else if p.ptype = "CONNECT_ACK" then
      (if st.sessionId = "" then { st with sessionId := p.session } else st, [])
    else if p.ptype = "DATA" ∨ p.ptype = "LAST" then
      ({ st with dataQueue := st.dataQueue ++ [p.data] },
       [create_packet p.seq "ACK" st.sessionId (strBytes "ACK")])
    else (st, [])

theorem parse_server_checksum_reject (h : RawHeader) (data : List Nat) (t : String)
    (ht : h.ptype = some t) (hver : ¬(t = "ACK" ∨ t = "CONNECT"))
    (hck : h.checksum ≠ some (md5hex data)) :
    parse_packet_server (some h) data = none := by
  simp only [parse_packet_server, ht, if_neg hver]
  cases hc : h.checksum with
  | none => rfl
  | some c =>
    rw [hc] at hck
    have : ¬(c = md5hex data) := fun he => hck (by rw [he])
    simp [this]

theorem parse_client_checksum_reject (h : RawHeader) (data : List Nat) (t : String)
    (ht : h.ptype = some t) (hver : ¬(t = "ACK" ∨ t = "CONNECT_ACK"))
    (hck : h.checksum ≠ some (md5hex data)) :
    parse_packet_client (some h) data = none := by
  simp only [parse_packet_client, ht, if_neg hver]
  cases hc : h.checksum with
  | none => rfl
  | some c =>
    rw [hc] at hck
    have : ¬(c = md5hex data) := fun he => hck (by rw [he])
    simp [this]

theorem finishParse_server_no_seq (h : RawHeader) (t : String) (data : List Nat)
    (hseq : h.seq = none) : finishParse_server h t data = none := by
  simp only [finishParse_server, hseq]

theorem finishParse_client_no_seq (h : RawHeader) (t : String) (data : List Nat)
    (hseq : h.seq = none) : finishParse_client h t data = none := by
  simp only [finishParse_client, hseq]

theorem parse_server_no_seq (h : RawHeader) (data : List Nat) (t : String)
    (ht : h.ptype = some t) (hseq : h.seq = none) :
    parse_packet_server (some h) data = none := by
  simp only [parse_packet_server, ht]
  by_cases hskip : t = "ACK" ∨ t = "CONNECT"
  · rw [if_pos hskip, finishParse_server_no_seq h t data hseq]
  · rw [if_neg hskip]
    cases hc : h.checksum with
    | none => rfl
    | some c =>
      show (if c = md5hex data then finishParse_server h t data else none) = none
      by_cases hm : c = md5hex data
      · rw [if_pos hm, finishParse_server_no_seq h t data hseq]
      · rw [if_neg hm]

theorem parse_client_no_seq (h : RawHeader) (data : List Nat) (t : String)
    (ht : h.ptype = some t) (hseq : h.seq = none) :
    parse_packet_client (some h) data = none := by
  simp only [parse_packet_client, ht]
  by_cases hskip : t = "ACK" ∨ t = "CONNECT_ACK"
  · rw [if_pos hskip, finishParse_client_no_seq h t data hseq]
  · rw [if_neg hskip]
    cases hc : h.checksum with
    | none => rfl
    | some c =>
      show (if c = md5hex data then finishParse_client h t data else none) = none
      by_cases hm : c = md5hex data
      · rw [if_pos hm, finishParse_client_no_seq h t data hseq]
      · rw [if_neg hm]

/-- C6: decode is total and failure is silent.  Decoding returns an invalid
result (`none`) — never an escalated exception — for a malformed or
truncated header (`json.loads` failure), for a header missing the `type`
or `seq` field, and for a `DATA`/`LAST` packet whose checksum field does
not equal the digest of the data region; and on any input whose parse
fails, the accepting side's dispatcher iteration and the initiating side's
receiver iteration leave their state unchanged and transmit nothing, so a
single bad packet never stops either loop. -/
theorem c6_decode_total_discard :
    (∀ data : List Nat,
      parse_packet_server none data = none ∧ parse_packet_client none data = none)
    ∧ (∀ (h : RawHeader) (data : List Nat), h.ptype = none →
      parse_packet_server (some h) data = none ∧ parse_packet_client (some h) data = none)
    ∧ (∀ (h : RawHeader) (data : List Nat) (t : String), h.ptype = some t → h.seq = none →
      parse_packet_server (some h) data = none ∧ parse_packet_client (some h) data = none)
    ∧ (∀ (h : RawHeader) (data : List Nat) (t : String), h.ptype = some t →
      (t = "DATA" ∨ t = "LAST") → h.checksum ≠ some (md5hex data) →
      parse_packet_server (some h) data = none ∧ parse_packet_client (some h) data = none)
    ∧ (∀ (st : ServerState) (now : Nat) (hdr : Option RawHeader) (data : List Nat)
        (addr : String), parse_packet_server hdr data = none →
      handle_packet st now hdr data addr = (st, []))
    ∧ (∀ (st : ClientState) (hdr : Option RawHeader) (data : List Nat),
      parse_packet_client hdr data = none → receiver_step st hdr data = (st, [])) := by
  refine ⟨?_, ?_, ?_, ?_, ?_, ?_⟩
  · intro data; exact ⟨rfl, rfl⟩
  · intro h data ht
    constructor
    · simp only [parse_packet_server, ht]
    · simp only [parse_packet_client, ht]
  · intro h data t ht hseq
    exact ⟨parse_server_no_seq h data t ht hseq, parse_client_no_seq h data t ht hseq⟩
  · intro h data t ht hdl hck
    have hv1 : ¬(t = "ACK" ∨ t = "CONNECT") := by
      rcases hdl with h1 | h1 <;> rw [h1] <;> decide
    have hv2 : ¬(t = "ACK" ∨ t = "CONNECT_ACK") := by
      rcases hdl with h1 | h1 <;> rw [h1] <;> decide
    exact ⟨parse_server_checksum_reject h data t ht hv1 hck,
      parse_client_checksum_reject h data t ht hv2 hck⟩
  · intro st now hdr data addr hp
    simp only [handle_packet, hp]
  · intro st hdr data hp
    simp only [receiver_step, hp]

/-- C6 witness: a datagram whose header region does not decode is dropped
by the accepting side's dispatcher with no state change and no reply. -/
theorem c6_decode_total_discard_witness :
    handle_packet ⟨[], []⟩ 0 none [] "a" = (⟨[], []⟩, []) :=
  c6_decode_total_discard.2.2.2.2.1 ⟨[], []⟩ 0 none [] "a" rfl

/-- C8: acknowledgments echo the received sequence number and are not
conditioned on novelty.  For every `DATA`/`LAST` packet that parses — with
a known session on the accepting side; unconditionally on the initiating
side — the receiver replies with exactly one `ACK` whose sequence number is
the received one (neither side keeps any record of already-seen sequence
numbers, so the same reply is produced for a retransmitted duplicate), and
then appends the payload chunk to the session's inbound buffer (accepting
side) or to the data queue (initiating side). -/
theorem c8_ack_echo_and_enqueue :
    (∀ (st : ServerState) (now : Nat) (hdr : Option RawHeader) (data : List Nat)
       (addr : String) (p : ParsedPacket) (info : ClientInfo),
      parse_packet_server hdr data = some p →
      (p.ptype = "DATA" ∨ p.ptype = "LAST") →
      alookup p.session st.clients = some info →
      handle_packet st now hdr data addr =
        ({ st with clients := st.clients.map (fun q =>
             if q.1 = p.session then
               (q.1, { q.2 with lastActive := now, buffer := q.2.buffer ++ [p.data] })
             else q) },
         [(create_packet p.seq "ACK" p.session (strBytes "ACK"), addr)]))
    ∧ (∀ (st : ClientState) (hdr : Option RawHeader) (data : List Nat) (p : ParsedPacket),
      parse_packet_client hdr data = some p →
      (p.ptype = "DATA" ∨ p.ptype = "LAST") →
      receiver_step st hdr data =
        ({ st with dataQueue := st.dataQueue ++ [p.data] },
         [create_packet p.seq "ACK" st.sessionId (strBytes "ACK")])) := by
  constructor
  · intro st now hdr data addr p info hp hdl hsess
    have hnc : ¬(p.ptype = "CONNECT") := by
      rcases hdl with h1 | h1 <;> rw [h1] <;> decide
    simp only [handle_packet, hp, if_neg hnc, if_pos hdl, hsess]
  · intro st hdr data p hp hdl
    have hna : ¬(p.ptype = "ACK") := by
      rcases hdl with h1 | h1 <;> rw [h1] <;> decide
    have hnca : ¬(p.ptype = "CONNECT_ACK") := by
      rcases hdl with h1 | h1 <;> rw [h1] <;> decide
    simp only [receiver_step, hp, if_neg hna, if_neg hnca, if_pos hdl]

/-- C8 witness: a concrete `DATA` packet for known session "s" is
acknowledged with its own sequence number 3 and its payload enqueued. -/
theorem c8_ack_echo_and_enqueue_witness :
    handle_packet ⟨[("s", ⟨"a", 0, []⟩)], [("s", 0)]⟩ 7
      (some ⟨some 3, some (md5hex [65]), some "DATA", some 1, some "s"⟩) [65] "a"
    = (⟨[("s", ⟨"a", 7, [[65]]⟩)], [("s", 0)]⟩,
       [(create_packet 3 "ACK" "s" (strBytes "ACK"), "a")]) := by
  rw [c8_ack_echo_and_enqueue.1 ⟨[("s", ⟨"a", 0, []⟩)], [("s", 0)]⟩ 7
    (some ⟨some 3, some (md5hex [65]), some "DATA", some 1, some "s"⟩) [65] "a"
    ⟨3, "DATA", 1, "s", [65]⟩ ⟨"a", 0, []⟩ (by decide) (Or.inl rfl) (by decide)]
  rfl

theorem alookup_none_filter {β : Type} (k : String) (pred : String × β → Bool) :
    ∀ (l : List (String × β)), alookup k l = none →
    alookup k (l.filter pred) = none := by
  intro l
  induction l with
  | nil => intro _; rfl
  | cons q rest ih =>
    intro hl
    obtain ⟨k', v⟩ := q
    by_cases hk : k' = k
    · simp [alookup, hk] at hl
    · simp only [alookup, if_neg hk] at hl
      simp only [List.filter]
      cases pred (k', v) with
      | true => simp only [alookup, if_neg hk]; exact ih hl
      | false => exact ih hl

theorem alookup_filter_none {β : Type} (k : String) (pred : String × β → Bool) (info : β) :
    ∀ (l : List (String × β)), (l.map Prod.fst).Nodup →
    alookup k l = some info → pred (k, info) = false →
    alookup k (l.filter pred) = none := by
  intro l
  induction l with
  | nil => intro _ hl _; simp [alookup] at hl
  | cons q rest ih =>
    intro hnd hl hpred
    obtain ⟨k', v⟩ := q
    simp only [List.map, List.nodup_cons] at hnd
    by_cases hk : k' = k
    · simp only [alookup, if_pos hk] at hl
      have hv : v = info := Option.some.injEq .. ▸ hl
      have habs : alookup k rest = none := by
        cases hr : alookup k rest with
        | none => rfl
        | some w =>
          exfalso
          apply hnd.1
          rw [hk]
          clear ih hl hnd
          induction rest with
          | nil => simp [alookup] at hr
          | cons q2 r2 ih2 =>
            obtain ⟨k2, v2⟩ := q2
            by_cases hk2 : k2 = k
            · simp only [List.map, List.mem_cons]
              exact Or.inl hk2.symm
            · simp only [alookup, if_neg hk2] at hr
              simp only [List.map, List.mem_cons]
              exact Or.inr (ih2 hr)
      simp only [List.filter]
      rw [hk, hv, hpred]
      exact alookup_none_filter k pred rest habs
    · simp only [alookup, if_neg hk] at hl
      simp only [List.filter]
      cases pred (k', v) with
      | true => simp only [alookup, if_neg hk]; exact ih hnd.2 hl hpred
      | false => exact ih hnd.2 hl hpred

/-- C9: the idle sweep at the bottom of the accepting side's dispatcher
loop removes every session whose `last_active` lies more than 60 time
units in the past (when session ids in the registry are distinct, as the
Python dictionary guarantees), and once the session is removed, a
`DATA`/`LAST` packet referencing its id takes the unknown-session branch:
it is dropped with no state change and no reply of any kind. -/
theorem c9_idle_sweep_drop :
    ∀ (st : ServerState) (now now' : Nat) (sid : String) (info : ClientInfo)
      (hdr : Option RawHeader) (data : List Nat) (addr : String) (p : ParsedPacket),
    (st.clients.map Prod.fst).Nodup →
    alookup sid st.clients = some info →
    60 < now - info.lastActive →
    parse_packet_server hdr data = some p →
    p.session = sid →
    (p.ptype = "DATA" ∨ p.ptype = "LAST") →
    alookup sid (cleanup_inactive now st).clients = none
    ∧ handle_packet (cleanup_inactive now st) now' hdr data addr
        = (cleanup_inactive now st, []) := by
  intro st now now' sid info hdr data addr p hnd hsess hidle hp hpsid hdl
  have hgone : alookup sid (cleanup_inactive now st).clients = none := by
    apply alookup_filter_none sid _ info st.clients hnd hsess
    simp only [decide_eq_false_iff_not]
    omega
  refine ⟨hgone, ?_⟩
  have hnc : ¬(p.ptype = "CONNECT") := by
    rcases hdl with h1 | h1 <;> rw [h1] <;> decide
  simp only [handle_packet, hp, if_neg hnc, if_pos hdl, hpsid, hgone]

/-- C9 witness: a concrete session "s" idle since time 0 is removed by the
sweep at time 100, and a subsequent valid `DATA` packet for "s" is dropped
with no reply. -/
theorem c9_idle_sweep_drop_witness :
    alookup "s" (cleanup_inactive 100 ⟨[("s", ⟨"a", 0, []⟩)], [("s", 0)]⟩).clients = none
    ∧ handle_packet (cleanup_inactive 100 ⟨[("s", ⟨"a", 0, []⟩)], [("s", 0)]⟩) 101
        (some ⟨some 3, some (md5hex [65]), some "DATA", some 1, some "s"⟩) [65] "a"
      = (cleanup_inactive 100 ⟨[("s", ⟨"a", 0, []⟩)], [("s", 0)]⟩, []) :=
  c9_idle_sweep_drop ⟨[("s", ⟨"a", 0, []⟩)], [("s", 0)]⟩ 100 101 "s" ⟨"a", 0, []⟩
    (some ⟨some 3, some (md5hex [65]), some "DATA", some 1, some "s"⟩) [65] "a"
    ⟨3, "DATA", 1, "s", [65]⟩ (by decide) (by decide) (by decide) (by decide) rfl
    (Or.inl rfl)

theorem md5hex_data_length (d : List Nat) : (md5hex d).data.length = 32 := by
  simp [md5hex]

theorem strBytes_length (s : String) : (strBytes s).length = s.data.length := by
  simp [strBytes]

/-- C5 counterexample: `_create_packet` performs no size check and never
fails.  For a single-frame payload of 1201 bytes — one byte over the
maximum payload size — it happily returns a 1401-byte packet, exceeding
the fixed 1400-byte packet capacity, instead of reporting an encoding
error. -/
theorem c5_counterexample :
    (create_packet 0 "LAST" "" (List.replicate 1201 88)).length = 1401 ∧ 1400 < 1401 := by
  refine ⟨?_, by norm_num⟩
  have hdl : (List.replicate 1201 (88 : Nat)).length = 1201 := by
    rw [List.length_replicate]
  have hh : (strBytes (jsonHeader 0 (md5hex (List.replicate 1201 88)) "LAST" 1201 "")).length
      = 105 := by
    rw [strBytes_length]
    simp only [jsonHeader, String.data_append, List.length_append]
    rw [md5hex_data_length]
    decide
  simp only [create_packet]
  rw [hdl]
  rw [List.length_append, List.length_append, List.length_replicate, hh]
  norm_num

/-- C5 amended: `_create_packet` is total and checks nothing; what holds
instead is a conditional capacity bound: whenever the payload fits in a
single frame (at most `DATA_SIZE = 1200` bytes) and the JSON header text
fits in the fixed 200-byte header region (as it does for every header the
protocol itself generates), the encoded packet is at most
`PACKET_SIZE = 1400` bytes — the callers guarantee the payload bound by
chunking at 1200 bytes, so every packet the transport itself sends is
within capacity, but an oversized payload passed directly produces an
oversized packet rather than an error. -/
theorem c5_amended_capacity :
    ∀ (seq : Int) (ptype session : String) (data : List Nat),
    data.length ≤ 1200 →
    (strBytes (jsonHeader seq (md5hex data) ptype data.length session)).length ≤ 200 →
    (create_packet seq ptype session data).length ≤ 1400 := by
  intro seq ptype session data hd hh
  simp only [create_packet]
  rw [List.length_append, List.length_append, List.length_replicate]
  omega

/-- C5 amended witness: a one-byte `DATA` frame encodes within the
1400-byte capacity. -/
theorem c5_amended_capacity_witness :
    (create_packet 0 "DATA" "" [65]).length ≤ 1400 :=
  c5_amended_capacity 0 "DATA" "" [65] (by decide) (by decide)

theorem send_reliable_true_eq (seqc : Int) (d : List Nat) (a : List (Option Int)) :
    send_reliable true seqc d a = send_chunks (splitChunks d) seqc a := rfl

theorem send_chunks_seq_bounds : ∀ (chunks : List (List Nat)) (seqc : Int)
    (acks : List (Option Int)),
    (∀ e ∈ (send_chunks chunks seqc acks).2.1,
      seqc ≤ e.seq ∧ e.seq < (send_chunks chunks seqc acks).2.2.1)
    ∧ seqc ≤ (send_chunks chunks seqc acks).2.2.1
    ∧ List.Pairwise (fun a b : ChunkSend => a.seq < b.seq)
        (send_chunks chunks seqc acks).2.1 := by
  intro chunks
  induction chunks with
  | nil =>
    intro seqc acks
    refine ⟨?_, le_refl _, ?_⟩
    · intro e he; simp [send_chunks] at he
    · simp [send_chunks]
  | cons ch chs ih =>
    intro seqc acks
    obtain ⟨hb2, hc2, hp2⟩ := ih (seqc + 1) (awaitAck 5 seqc acks).2.2
    by_cases hb : (awaitAck 5 seqc acks).1 = true
    · have hrw : (send_chunks (ch :: chs) seqc acks).2.1 =
          ⟨seqc, if chs = [] then "LAST" else "DATA", ch, (awaitAck 5 seqc acks).2.1, true⟩
            :: (send_chunks chs (seqc + 1) (awaitAck 5 seqc acks).2.2).2.1 := by
        simp only [send_chunks, if_pos hb]
      have hrc : (send_chunks (ch :: chs) seqc acks).2.2.1 =
          (send_chunks chs (seqc + 1) (awaitAck 5 seqc acks).2.2).2.2.1 := by
        simp only [send_chunks, if_pos hb]
      refine ⟨?_, ?_, ?_⟩
      · intro e he
        rw [hrw] at he
        rw [hrc]
        rcases List.mem_cons.mp he with h1 | h1
        · constructor
          · rw [h1]
          · rw [h1]
            show seqc < _
            omega
        · obtain ⟨hl, hr⟩ := hb2 e h1
          exact ⟨by omega, hr⟩
      · rw [hrc]; omega
      · rw [hrw]
        refine List.Pairwise.cons ?_ hp2
        intro e he
        show seqc < e.seq
        have := (hb2 e he).1
        omega
    · have hrw : (send_chunks (ch :: chs) seqc acks).2.1 =
          [⟨seqc, if chs = [] then "LAST" else "DATA", ch, (awaitAck 5 seqc acks).2.1,
            false⟩] := by
        simp only [send_chunks, if_neg hb]
      have hrc : (send_chunks (ch :: chs) seqc acks).2.2.1 = seqc + 1 := by
        simp only [send_chunks, if_neg hb]
      refine ⟨?_, ?_, ?_⟩
      · intro e he
        rw [hrw] at he
        rw [hrc]
        rcases List.mem_cons.mp he with h1 | h1
        · rw [h1]
          refine ⟨le_refl _, ?_⟩
          show seqc < seqc + 1
          omega
        · simp at h1
      · rw [hrc]; omega
      · rw [hrw]
        exact List.pairwise_singleton _ _

/-- Concatenated transcript of a sequence of `send_reliable` calls on the
initiating side's single implicit session, threading the persistent
`self.sequence_number` counter through the calls exactly as the object
attribute is (the counter advances even across a failed send). -/
def clientRuns : Int → List (List Nat × List (Option Int)) → List ChunkSend
  | _, [] => []
  | seqc, (d, a) :: rest =>
    (send_reliable true seqc d a).2.1 ++ clientRuns (send_reliable true seqc d a).2.2.1 rest

/-- Concatenated transcript of a sequence of `send_data` calls for one
session id on the accepting side, threading `self.sequence_numbers`. -/
def serverRuns : List (String × Int) → String → List (List Nat) → List ServerChunk
  | _, _, [] => []
  | m, sid, d :: rest =>
    (send_data m sid d).2.1 ++ serverRuns (send_data m sid d).2.2 sid rest

theorem clientRuns_lb : ∀ (runs : List (List Nat × List (Option Int))) (seqc : Int),
    ∀ e ∈ clientRuns seqc runs, seqc ≤ e.seq := by
  intro runs
  induction runs with
  | nil => intro seqc e he; simp [clientRuns] at he
  | cons r rest ih =>
    intro seqc e he
    obtain ⟨d, a⟩ := r
    simp only [clientRuns] at he
    rcases List.mem_append.mp he with h1 | h1
    · rw [send_reliable_true_eq] at h1
      exact ((send_chunks_seq_bounds (splitChunks d) seqc a).1 e h1).1
    · rw [send_reliable_true_eq] at h1
      have hc := (send_chunks_seq_bounds (splitChunks d) seqc a).2.1
      have := ih _ e h1
      omega

theorem chunkPackets_seq_bounds : ∀ (chunks : List (List Nat)) (c : Int),
    (∀ e ∈ chunkPackets c chunks, c ≤ e.seq ∧ e.seq < c + chunks.length)
    ∧ List.Pairwise (fun a b : ServerChunk => a.seq < b.seq) (chunkPackets c chunks) := by
  intro chunks
  induction chunks with
  | nil =>
    intro c
    refine ⟨?_, List.Pairwise.nil⟩
    intro e he; simp [chunkPackets] at he
  | cons ch chs ih =>
    intro c
    obtain ⟨hb, hp⟩ := ih (c + 1)
    constructor
    · intro e he
      simp only [chunkPackets] at he
      rcases List.mem_cons.mp he with h1 | h1
      · rw [h1]
        refine ⟨le_refl _, ?_⟩
        show c < c + ((chs.length : Int) + 1)
        omega
      · obtain ⟨hl, hr⟩ := hb e h1
        refine ⟨by omega, ?_⟩
        simp only [List.length_cons]
        push_cast
        omega
    · show List.Pairwise _
        (⟨c, if chs = [] then "LAST" else "DATA", ch⟩ :: chunkPackets (c + 1) chs)
      refine List.Pairwise.cons ?_ hp
      intro e he
      show c < e.seq
      have := (hb e he).1
      omega

theorem alookup_map_update {β : Type} (k : String) (v : β) :
    ∀ (m : List (String × β)), (alookup k m).isSome = true →
    alookup k (m.map (fun p => if p.1 = k then (p.1, v) else p)) = some v := by
  intro m
  induction m with
  | nil => intro h; simp [alookup] at h
  | cons q rest ih =>
    intro h
    obtain ⟨k', w⟩ := q
    by_cases hk : k' = k
    · subst hk
      show alookup k'
        ((if (k' : String) = k' then (k', v) else (k', w)) ::
          rest.map (fun p => if p.1 = k' then (p.1, v) else p)) = some v
      rw [if_pos rfl]
      show (if k' = k' then some v
        else alookup k' (rest.map (fun p => if p.1 = k' then (p.1, v) else p))) = some v
      rw [if_pos rfl]
    · simp only [alookup, if_neg hk] at h
      have hrec := ih h
      show alookup k
        ((if (k' : String) = k then (k', v) else (k', w)) ::
          rest.map (fun p => if p.1 = k then (p.1, v) else p)) = some v
      rw [if_neg hk]
      show (if k' = k then some w
        else alookup k (rest.map (fun p => if p.1 = k then (p.1, v) else p))) = some v
      rw [if_neg hk]
      exact hrec

theorem alookup_aset {β : Type} (k : String) (v : β) (m : List (String × β)) :
    alookup k (aset k v m) = some v := by
  by_cases h : (alookup k m).isSome = true
  · simp only [aset, if_pos h]
    exact alookup_map_update k v m h
  · simp [aset, if_neg h, alookup]

theorem serverRuns_lb : ∀ (ds : List (List Nat)) (m : List (String × Int)) (sid : String)
    (b : Int), b ≤ (alookup sid m).getD 0 → ∀ e ∈ serverRuns m sid ds, b ≤ e.seq := by
  intro ds
  induction ds with
  | nil => intro m sid b _ e he; simp [serverRuns] at he
  | cons d rest ih =>
    intro m sid b hb e he
    simp only [serverRuns] at he
    rcases List.mem_append.mp he with h1 | h1
    · simp only [send_data] at h1
      have := (chunkPackets_seq_bounds (splitChunks d) ((alookup sid m).getD 0)).1 e h1
      omega
    · apply ih _ sid b _ e h1
      simp only [send_data]
      rw [alookup_aset]
      rw [Option.getD_some]
      have : (0 : Int) ≤ ((splitChunks d).length : Int) := Int.ofNat_nonneg _
      omega

/-- C7: sequence numbers are unique and strictly increasing per
sender-session pair.  Across any succession of payload sends — the
initiating side's `send_reliable` calls on its single session, threading
`self.sequence_number`, and the accepting side's `send_data` calls for one
session id, threading `self.sequence_numbers[sid]` — the sequence numbers
assigned to the transmitted `DATA`/`LAST` chunks are pairwise strictly
increasing in transmission order (hence all distinct). -/
theorem c7_sequence_numbers_strictly_increasing :
    (∀ (seqc : Int) (runs : List (List Nat × List (Option Int))),
      List.Pairwise (fun a b : ChunkSend => a.seq < b.seq) (clientRuns seqc runs))
    ∧ (∀ (m : List (String × Int)) (sid : String) (ds : List (List Nat)),
      List.Pairwise (fun a b : ServerChunk => a.seq < b.seq) (serverRuns m sid ds)) := by
  constructor
  · intro seqc runs
    induction runs generalizing seqc with
    | nil => simp [clientRuns]
    | cons r rest ih =>
      obtain ⟨d, a⟩ := r
      simp only [clientRuns]
      rw [List.pairwise_append]
      obtain ⟨hbnd, hcnt, hpw⟩ := send_chunks_seq_bounds (splitChunks d) seqc a
      refine ⟨by rw [send_reliable_true_eq]; exact hpw, ih _, ?_⟩
      intro e1 h1 e2 h2
      rw [send_reliable_true_eq] at h1 h2
      have hub := (hbnd e1 h1).2
      have hlb := clientRuns_lb rest _ e2 h2
      omega
  · intro m sid ds
    induction ds generalizing m with
    | nil => simp [serverRuns]
    | cons d rest ih =>
      simp only [serverRuns]
      rw [List.pairwise_append]
      obtain ⟨hbnd, hpw⟩ := chunkPackets_seq_bounds (splitChunks d) ((alookup sid m).getD 0)
      refine ⟨?_, ih _, ?_⟩
      · simp only [send_data]
        exact hpw
      · intro e1 h1 e2 h2
        simp only [send_data] at h1
        have hub := (hbnd e1 h1).2
        have hlb : (alookup sid m).getD 0 + 1 + ((splitChunks d).length : Int) ≤ e2.seq := by
          apply serverRuns_lb rest _ sid _ _ e2 h2
          simp only [send_data]
          rw [alookup_aset]
          rw [Option.getD_some]
        omega
